import Mathlib

/-!
Shallow embedding of the numerical kernels of the AppStat2024 notebooks:
the profile-histogram reduction, the analytical linear fit, the
accept/reject sampler, the Ehrenfest Markov-chain transfer matrix, the
Fisher-discriminant cells, the resolution (masked standard deviation)
computations and the save-figure cells.  Machine floating point is
idealised as exact rational arithmetic; external library functions
(numpy sqrt, scipy chi2 survival function) are passed in as explicit
function parameters.
-/

set_option autoImplicit false

namespace AppStat

/-- Bin index of a value for a uniform binning of [lo, hi] into n bins, as
numpy.histogram2d assigns it: values outside [lo, hi] are dropped, interior
values go to bin floor((v - lo) * n / (hi - lo)), and the right edge v = hi
is included in the last bin. -/
def binIndex (lo hi : ℚ) (n : ℕ) (v : ℚ) : Option ℕ :=
  if lo ≤ v ∧ v ≤ hi ∧ lo < hi ∧ 0 < n then
    some (min (Int.toNat ⌊(v - lo) * n / (hi - lo)⌋) (n - 1))
  else none

/-- Entry (i, j) of the 2D histogram H of np.histogram2d(x, y, bins, range):
the number of aligned pairs falling in x-bin i and y-bin j, as a rational. -/
def H2d (xs ys : List ℚ) (nbx nby : ℕ) (xr yr : ℚ × ℚ) (i j : ℕ) : ℚ :=
  (((xs.zip ys).filter (fun p =>
      binIndex xr.1 xr.2 nbx p.1 == some i &&
      binIndex yr.1 yr.2 nby p.2 == some j)).length : ℚ)

/-- Row sums H.sum(1) of the 2D histogram: total count of x-bin i. -/
def wsums (xs ys : List ℚ) (nbx nby : ℕ) (xr yr : ℚ × ℚ) (i : ℕ) : ℚ :=
  ∑ j ∈ Finset.range nby, H2d xs ys nbx nby xr yr i j

/-- Center of bin i for the uniform binning of [lo, hi] into n bins:
0.5 * (edges[i] + edges[i+1]). -/
def binCenter (lo hi : ℚ) (n : ℕ) (i : ℕ) : ℚ :=
  lo + ((i : ℚ) + 1/2) * (hi - lo) / n

/-- Indices of the x-bins kept by the mask wsums > 0 in profile_x. -/
def profMask (xs ys : List ℚ) (nbx nby : ℕ) (xr yr : ℚ × ℚ) : List ℕ :=
  (List.range nbx).filter (fun i => decide (0 < wsums xs ys nbx nby xr yr i))

/-- The value (H * y_center).sum(1)[i] / wsums[i] computed by profile_x. -/
def profMean (xs ys : List ℚ) (nbx nby : ℕ) (xr yr : ℚ × ℚ) (i : ℕ) : ℚ :=
  (∑ j ∈ Finset.range nby,
      H2d xs ys nbx nby xr yr i j * binCenter yr.1 yr.2 nby j) /
    wsums xs ys nbx nby xr yr i

/-- The value (H * y_center ** 2).sum(1)[i] / wsums[i] computed by profile_x. -/
def profMeanSq (xs ys : List ℚ) (nbx nby : ℕ) (xr yr : ℚ × ℚ) (i : ℕ) : ℚ :=
  (∑ j ∈ Finset.range nby,
      H2d xs ys nbx nby xr yr i j * (binCenter yr.1 yr.2 nby j)^2) /
    wsums xs ys nbx nby xr yr i

/-- The third array of profile_x at x-bin i:
np.sqrt(mean_squared - mean**2) / np.sqrt(wsums[mask]), with np.sqrt passed
in as the parameter sq. -/
def profStd (sq : ℚ → ℚ) (xs ys : List ℚ) (nbx nby : ℕ) (xr yr : ℚ × ℚ)
    (i : ℕ) : ℚ :=
  sq (profMeanSq xs ys nbx nby xr yr i - (profMean xs ys nbx nby xr yr i)^2) /
    sq (wsums xs ys nbx nby xr yr i)

/-- The profile_x function of the calibration notebook: returns the masked
x-bin centers, the per-bin means and the per-bin third array. -/
def profile_x (sq : ℚ → ℚ) (xs ys : List ℚ) (nbx nby : ℕ) (xr yr : ℚ × ℚ) :
    List ℚ × List ℚ × List ℚ :=
  ((profMask xs ys nbx nby xr yr).map (binCenter xr.1 xr.2 nbx),
   (profMask xs ys nbx nby xr yr).map (profMean xs ys nbx nby xr yr),
   (profMask xs ys nbx nby xr yr).map (profStd sq xs ys nbx nby xr yr))

/-- Spec-side notion: the mean of the bin centers c weighted by the counts w,
as the claim describes the per-x-bin mean of y. -/
def specBinMean (w c : ℕ → ℚ) (n : ℕ) : ℚ :=
  (∑ j ∈ Finset.range n, w j * c j) / ∑ j ∈ Finset.range n, w j

/-- Spec-side notion: the standard deviation of the bin centers c weighted by
the counts w (square root of the weighted mean squared deviation), as the
claim describes the per-x-bin standard deviation of y. -/
def specBinStd (sq : ℚ → ℚ) (w c : ℕ → ℚ) (n : ℕ) : ℚ :=
  sq ((∑ j ∈ Finset.range n, w j * (c j - specBinMean w c n)^2) /
    ∑ j ∈ Finset.range n, w j)

/-- Sum of x*y over the aligned data arrays. -/
def sumXY (xs ys : List ℚ) : ℚ := ((xs.zip ys).map (fun p => p.1 * p.2)).sum

/-- Sum of x**2 over the data array. -/
def sumXX (xs : List ℚ) : ℚ := (xs.map (fun v => v^2)).sum

/-- The determinant Delta = sumxx * sum - sumx**2 of the analytical linear
fit (sum denotes the number of points, as in the notebook). -/
def Delta (xs : List ℚ) : ℚ := sumXX xs * (xs.length : ℚ) - xs.sum^2

/-- Analytical intercept alpha0_calc = (sumy * sumxx - sumxy * sumx) / Delta. -/
def alpha0_calc (xs ys : List ℚ) : ℚ :=
  (ys.sum * sumXX xs - sumXY xs ys * xs.sum) / Delta xs

/-- Analytical slope alpha1_calc = (sumxy * sum - sumy * sumx) / Delta. -/
def alpha1_calc (xs ys : List ℚ) : ℚ :=
  (sumXY xs ys * (xs.length : ℚ) - ys.sum * xs.sum) / Delta xs

/-- The chi-square of the analytical fit: the sum over the data points of
((y - (alpha0_calc + alpha1_calc * x)) / ey)^2 with common uncertainty
ey = sigmay. -/
def Chi2_calc (xs ys : List ℚ) (sigmay : ℚ) : ℚ :=
  ((xs.zip ys).map (fun p =>
    ((p.2 - (alpha0_calc xs ys + alpha1_calc xs ys * p.1)) / sigmay)^2)).sum

/-- Degrees of freedom Ndof_calc = Npoints - 2 (two fitted parameters). -/
def Ndof_calc (xs : List ℚ) : ℕ := xs.length - 2

/-- Goodness-of-fit probability Prob_calc = stats.chi2.sf(Chi2_calc, Ndof),
with the scipy survival function passed in as the parameter chi2sf. -/
def Prob_calc (chi2sf : ℚ → ℕ → ℚ) (xs ys : List ℚ) (sigmay : ℚ) : ℚ :=
  chi2sf (Chi2_calc xs ys sigmay) (Ndof_calc xs)

/-- One pass of the inner while-loop of the accept/reject sampler: consume
pairs (x_test, y_test) from the random stream until one satisfies
y_test < 2 * x_test; return the accepted pair, the remaining stream and the
number of tries consumed (accepted try included). -/
def acceptOne : List (ℚ × ℚ) → Option ((ℚ × ℚ) × List (ℚ × ℚ) × ℕ)
  | [] => none
  | p :: rest =>
    if p.2 < 2 * p.1 then some (p, rest, 1)
    else
      match acceptOne rest with
      | none => none
      | some (q, r, k) => some (q, r, k + 1)

/-- The accept/reject loop of the TransformationAcceptReject notebook:
fill n entries of x_accepted, each by running the inner while-loop on the
stream of uniform draw pairs; also return the total try counter N_try.
Returns none when the (finite model of the) stream is exhausted first. -/
def acceptReject : ℕ → List (ℚ × ℚ) → Option (List ℚ × ℕ)
  | 0, _ => some ([], 0)
  | n + 1, stream =>
    match acceptOne stream with
    | none => none
    | some (p, rest, k) =>
      match acceptReject n rest with
      | none => none
      | some (xs, m) => some (p.1 :: xs, k + m)

/-- Mean of a list, np.mean (and the mean inside np.std). -/
def npMean (l : List ℚ) : ℚ := l.sum / (l.length : ℚ)

/-- Population standard deviation np.std (default ddof = 0), with np.sqrt
passed in as the parameter sq. -/
def stdPop (sq : ℚ → ℚ) (l : List ℚ) : ℚ :=
  sq ((l.map (fun v => (v - npMean l)^2)).sum / (l.length : ℚ))

/-- The boolean mask (-2.0 < RD) & (RD < 2.0) applied to an array. -/
def maskedVals (l : List ℚ) : List ℚ :=
  l.filter (fun v => decide (-2 < v) && decide (v < 2))

/-- Relative difference array RD = (dmeas - dknown) / dknown. -/
def RD (dmeas dknown : List ℚ) : List ℚ :=
  (dmeas.zip dknown).map (fun p => (p.1 - p.2) / p.2)

/-- Res_Raw = np.std(RD[(-2.0 < RD) & (RD < 2.0)]) of the calibration
notebook. -/
def Res_Raw (sq : ℚ → ℚ) (dmeas dknown : List ℚ) : ℚ :=
  stdPop sq (maskedVals (RD dmeas dknown))

/-- Res_calib_lsig: the same masked standard deviation applied to the
relative difference of the calibrated distances
RD_calib_lsig = (dmeas_calib_lsig - dknown) / dknown. -/
def Res_calib_lsig (sq : ℚ → ℚ) (dmeasCalib dknown : List ℚ) : ℚ :=
  stdPop sq (maskedVals (RD dmeasCalib dknown))

/-- Sample variance (divisor n - 1), the square of np.std(x, ddof=1). -/
def sampleVar (l : List ℚ) : ℚ :=
  ((l.map (fun v => (v - npMean l)^2)).sum) / ((l.length : ℚ) - 1)

/-- Sample standard deviation np.std(x, ddof=1), with np.sqrt passed in as
the parameter sq. -/
def stdSample (sq : ℚ → ℚ) (l : List ℚ) : ℚ := sq (sampleVar l)

/-- The calc_separation function of the Fisher notebook:
abs(mean_x - mean_y) / sqrt(std_x**2 + std_y**2) with ddof = 1 standard
deviations. -/
def calc_separation (sq : ℚ → ℚ) (x y : List ℚ) : ℚ :=
  |npMean x - npMean y| / sq ((stdSample sq x)^2 + (stdSample sq y)^2)

/-- The Ehrenfest jump-probability matrix of the Markov-chain notebook:
entry (i, j) of the (NB+1) x (NB+1) matrix M, exactly as the construction
loop fills it. -/
def ehrenfestM (NB : ℕ) (i j : ℕ) : ℚ :=
  if i = 0 then (if j = i + 1 then ((NB : ℚ) - i) / NB else 0)
  else if i = NB then (if j = i - 1 then (i : ℚ) / NB else 0)
  else if j = i - 1 then (i : ℚ) / NB
  else if j = i + 1 then ((NB : ℚ) - i) / NB
  else 0

/-- Row vector times square matrix over indices 0..n-1: np.matmul of a
(1, n) vector with an (n, n) matrix. -/
def vecMat (v : ℕ → ℚ) (A : ℕ → ℕ → ℚ) (n : ℕ) (j : ℕ) : ℚ :=
  ∑ i ∈ Finset.range n, v i * A i j

/-- Dot product of two length-n vectors, np.matmul of a (1, n) vector with
an (n,) vector. -/
def vecDot (v w : ℕ → ℚ) (n : ℕ) : ℚ := ∑ i ∈ Finset.range n, v i * w i

/-- Matrix power over indices 0..n-1, numpy.linalg.matrix_power. -/
def matPowF (n : ℕ) (A : ℕ → ℕ → ℚ) : ℕ → ℕ → ℕ → ℚ
  | 0 => fun i j => if i = j then 1 else 0
  | k + 1 => fun i j => ∑ l ∈ Finset.range n, matPowF n A k i l * A l j

/-- The notebook constant NB = 10 (number of balls; NB + 1 states). -/
def ehrNB : ℕ := 10

/-- The notebook constant nturns = 20. -/
def ehrTurns : ℕ := 20

/-- V1: the initial state-probability row vector, all mass in state 3. -/
def ehrV1 : ℕ → ℚ := fun i => if i = 3 then 1 else 0

/-- V2: the outcome-selection vector, selecting state 9. -/
def ehrV2 : ℕ → ℚ := fun j => if j = 9 then 1 else 0

/-- The all-ones matrix np.ones((NB+1, NB+1)). -/
def onesMat : ℕ → ℕ → ℚ := fun _ _ => 1

/-- The all-zeros vector np.zeros(NB+1). -/
def zerosVec : ℕ → ℚ := fun _ => 0

/-- PAfter as the code computes it:
np.matmul(V1, matrix_power(np.ones((NB+1, NB+1)), 1)). -/
def PAfter_code : ℕ → ℚ := vecMat ehrV1 (matPowF (ehrNB + 1) onesMat 1) (ehrNB + 1)

/-- P9 as the code computes it: np.matmul(PAfter, np.zeros(NB+1)). -/
def P9_code : ℚ := vecDot PAfter_code zerosVec (ehrNB + 1)

/-- PAfter as the claim states it: V1 times the nturns-th power of the jump
matrix M. -/
def PAfter_spec : ℕ → ℚ :=
  vecMat ehrV1 (matPowF (ehrNB + 1) (ehrenfestM ehrNB) ehrTurns) (ehrNB + 1)

/-- covmat_Vers as the code sets it: np.ones((4, 4)) (explicitly a
placeholder to be changed). -/
def covmat_Vers : ℕ → ℕ → ℚ := fun _ _ => 1

/-- covmat_Virg as the code sets it: np.eye(4, 4) (explicitly a placeholder
to be changed). -/
def covmat_Virg : ℕ → ℕ → ℚ := fun i j => if i = j then 1 else 0

/-- covmat_comb = covmat_Vers + covmat_Virg. -/
def covmat_comb : ℕ → ℕ → ℚ := fun i j => covmat_Vers i j + covmat_Virg i j

/-- covmat_comb_inv = inv(covmat_comb): the numpy.linalg inverse of the
concrete 4x4 matrix covmat_comb, namely I - J/5; that it is the two-sided
inverse is proved below. -/
def covmat_comb_inv : ℕ → ℕ → ℚ := fun i j => (if i = j then 1 else 0) - 1/5

/-- Entry (i, j) of the product of two 4x4 matrices. -/
def matMul4 (A B : ℕ → ℕ → ℚ) (i j : ℕ) : ℚ :=
  ∑ l ∈ Finset.range 4, A i l * B l j

/-- Matrix times column vector over indices 0..3. -/
def matVec4 (A : ℕ → ℕ → ℚ) (v : ℕ → ℚ) (i : ℕ) : ℚ :=
  ∑ j ∈ Finset.range 4, A i j * v j

/-- wf as the code sets it: np.array([0, 1, 2, 3]) (the cell above says to
compute the Fisher coefficients yourself). -/
def wf : ℕ → ℚ := fun i => (i : ℚ)

/-- Sample difference of per-class mean vectors used to exhibit the
divergence: difference 1 in the first variable, 0 in the others. -/
def meanDiffEx : ℕ → ℚ := fun i => if i = 0 then 1 else 0

/-- Statements of the save-figure cells: defining a figure object, or the
flag-guarded call fig.savefig(file). -/
inductive Stmt where
  | assignFig : String → Stmt
  | condSave : String → String → Stmt

/-- Notebook cell state for the save-figure model: the defined figure names
and the list of files written so far. -/
structure NbState where
  defined : List String
  writes : List String

/-- Execution of one statement: a savefig call on an undefined name raises a
NameError; with the flag off the guarded call is skipped. -/
def runStmt (flag : Bool) (s : NbState) : Stmt → Except String NbState
  | .assignFig n => .ok ⟨n :: s.defined, s.writes⟩
  | .condSave fig file =>
    if flag then
      if s.defined.contains fig then .ok ⟨s.defined, s.writes ++ [file]⟩
      else .error ("NameError: name " ++ fig ++ " is not defined")
    else .ok s

/-- Execution of a list of statements from a state. -/
def runScript (flag : Bool) : List Stmt → NbState → Except String NbState
  | [], s => .ok s
  | st :: rest, s =>
    match runStmt flag s st with
    | .error e => .error e
    | .ok s2 => runScript flag rest s2

/-- The figure-related statements of the calibration notebook: fig_RD is
created, and the SaveFigures-guarded cell calls fig_rel.savefig. -/
def calibScript : List Stmt :=
  [.assignFig ("fig_RD"), .condSave ("fig_rel") ("Resolution_Uncalibrated.pdf")]

/-- The figure-related statements of the Monte-Carlo pi notebook: fig1 is
created, and the save_plots-guarded cell calls fig1.savefig. -/
def piScript : List Stmt :=
  [.assignFig ("fig1"), .condSave ("fig1") ("HitDist.pdf")]

/-- The empty initial notebook state. -/
def initNb : NbState := ⟨[], []⟩

/-- Square-root lookup table that is exact on the two arguments the
profile-histogram counterexample feeds to np.sqrt (1/4 and 4), used to
instantiate the abstract square-root parameter there. -/
def sqrtEx (q : ℚ) : ℚ := if q = 1/4 then 1/2 else if q = 4 then 2 else 0

/-- Concrete x data for the profile-histogram evaluations: four identical
values in the single x-bin of [0, 1]. -/
def exXs : List ℚ := [0, 0, 0, 0]

/-- Concrete y data for the profile-histogram evaluations: two values in
each of the two y-bins of [0, 2], whose centers are 1/2 and 3/2. -/
def exYs : List ℚ := [0, 0, 2, 2]

theorem weightedVar_eq (w c : ℕ → ℚ) (n : ℕ)
    (hW : (∑ j ∈ Finset.range n, w j) ≠ 0) :
    (∑ j ∈ Finset.range n, w j * (c j - specBinMean w c n)^2) /
        (∑ j ∈ Finset.range n, w j) =
      (∑ j ∈ Finset.range n, w j * (c j)^2) / (∑ j ∈ Finset.range n, w j) -
        (specBinMean w c n)^2 := by
  have hm : specBinMean w c n * (∑ j ∈ Finset.range n, w j) =
      ∑ j ∈ Finset.range n, w j * c j := by
    unfold specBinMean
    field_simp
  have key : (∑ j ∈ Finset.range n, w j * (c j - specBinMean w c n)^2) =
      (∑ j ∈ Finset.range n, w j * (c j)^2) -
        (specBinMean w c n)^2 * (∑ j ∈ Finset.range n, w j) := by
    have expand : ∀ j ∈ Finset.range n,
        w j * (c j - specBinMean w c n)^2 =
          w j * (c j)^2 - 2 * specBinMean w c n * (w j * c j) +
            (specBinMean w c n)^2 * w j := by
      intro j _
      ring
    rw [Finset.sum_congr rfl expand, Finset.sum_add_distrib,
      Finset.sum_sub_distrib, ← Finset.mul_sum, ← Finset.mul_sum]
    linear_combination 2 * specBinMean w c n * hm
  rw [key, sub_div, mul_div_assoc, div_self hW, mul_one]

theorem mem_profMask_iff (xs ys : List ℚ) (nbx nby : ℕ) (xr yr : ℚ × ℚ)
    (i : ℕ) :
    i ∈ profMask xs ys nbx nby xr yr ↔
      i ∈ List.range nbx ∧ 0 < wsums xs ys nbx nby xr yr i := by
  unfold profMask
  rw [List.mem_filter]
  constructor
  · rintro ⟨h1, h2⟩
    exact ⟨h1, of_decide_eq_true h2⟩
  · rintro ⟨h1, h2⟩
    exact ⟨h1, decide_eq_true h2⟩


theorem profile_x_spec_form (sq : ℚ → ℚ) (xs ys : List ℚ)
    (nbx nby : ℕ) (xr yr : ℚ × ℚ) :
    profile_x sq xs ys nbx nby xr yr =
      ((profMask xs ys nbx nby xr yr).map (binCenter xr.1 xr.2 nbx),
       (profMask xs ys nbx nby xr yr).map (fun i =>
         specBinMean (H2d xs ys nbx nby xr yr i) (binCenter yr.1 yr.2 nby) nby),
       (profMask xs ys nbx nby xr yr).map (fun i =>
         specBinStd sq (H2d xs ys nbx nby xr yr i) (binCenter yr.1 yr.2 nby) nby /
           sq (wsums xs ys nbx nby xr yr i))) := by
  have hmean : (profMask xs ys nbx nby xr yr).map (profMean xs ys nbx nby xr yr) =
      (profMask xs ys nbx nby xr yr).map (fun i =>
        specBinMean (H2d xs ys nbx nby xr yr i) (binCenter yr.1 yr.2 nby) nby) := by
    apply List.map_congr_left
    intro i _
    simp [profMean, specBinMean, wsums]
  have hstd : (profMask xs ys nbx nby xr yr).map (profStd sq xs ys nbx nby xr yr) =
      (profMask xs ys nbx nby xr yr).map (fun i =>
        specBinStd sq (H2d xs ys nbx nby xr yr i) (binCenter yr.1 yr.2 nby) nby /
          sq (wsums xs ys nbx nby xr yr i)) := by
    apply List.map_congr_left
    intro i hi
    have hw : 0 < wsums xs ys nbx nby xr yr i :=
      ((mem_profMask_iff xs ys nbx nby xr yr i).mp hi).2
    have hW : (∑ j ∈ Finset.range nby, H2d xs ys nbx nby xr yr i j) ≠ 0 := by
      unfold wsums at hw
      exact ne_of_gt hw
    unfold profStd specBinStd
    rw [weightedVar_eq _ _ _ hW]
    have h1 : profMeanSq xs ys nbx nby xr yr i =
        (∑ j ∈ Finset.range nby,
          H2d xs ys nbx nby xr yr i j * (binCenter yr.1 yr.2 nby j)^2) /
        (∑ j ∈ Finset.range nby, H2d xs ys nbx nby xr yr i j) := by
      simp [profMeanSq, wsums]
    have h2 : profMean xs ys nbx nby xr yr i =
        specBinMean (H2d xs ys nbx nby xr yr i) (binCenter yr.1 yr.2 nby) nby := by
      simp [profMean, specBinMean, wsums]
    rw [h1, h2]
  unfold profile_x
  rw [hmean, hstd]

/-- C1 (amended): for every pair of input arrays and every bins/range
specification, profile_x returns, for the non-empty x-bins, the masked bin
centers, the per-x-bin count-weighted mean of the y-bin centers, and the
per-x-bin count-weighted standard deviation of the y-bin centers DIVIDED BY
the square root of the x-bin count (the standard error on the mean, not the
standard deviation), as a pure function of its inputs. -/
theorem profile_x_mean_and_stderr (sq : ℚ → ℚ) (xs ys : List ℚ)
    (nbx nby : ℕ) (xr yr : ℚ × ℚ) :
    profile_x sq xs ys nbx nby xr yr =
      ((profMask xs ys nbx nby xr yr).map (binCenter xr.1 xr.2 nbx),
       (profMask xs ys nbx nby xr yr).map (fun i =>
         specBinMean (H2d xs ys nbx nby xr yr i) (binCenter yr.1 yr.2 nby) nby),
       (profMask xs ys nbx nby xr yr).map (fun i =>
         specBinStd sq (H2d xs ys nbx nby xr yr i) (binCenter yr.1 yr.2 nby) nby /
           sq (wsums xs ys nbx nby xr yr i))) :=
  profile_x_spec_form sq xs ys nbx nby xr yr

/-- C1 counterexample: with four points in one x-bin and the y values split
evenly between the two y-bin centers 1/2 and 3/2, the third array returned
by profile_x is [1/4] while the count-weighted standard deviation of y in
that bin is 1/2; the square root used is exact at both points where the
code invokes it (1/4 and 4), so the claim that profile_x returns the
per-x-bin standard deviation of y is false. -/
theorem profile_x_std_counterexample :
    (profile_x sqrtEx exXs exYs 1 2 (0, 1) (0, 2)).2.2 = [1/4] ∧
    specBinStd sqrtEx (H2d exXs exYs 1 2 (0, 1) (0, 2) 0)
      (binCenter 0 2 2) 2 = 1/2 ∧
    sqrtEx (1/4) * sqrtEx (1/4) = 1/4 ∧
    sqrtEx 4 * sqrtEx 4 = 4 ∧
    ((1 : ℚ)/4) ≠ 1/2 := by
  have b1 : binIndex 0 1 1 0 = some 0 := by norm_num [binIndex]
  have b2 : binIndex 0 2 2 0 = some 0 := by norm_num [binIndex]
  have b3 : binIndex 0 2 2 2 = some 1 := by norm_num [binIndex]
  have h0 : H2d exXs exYs 1 2 (0, 1) (0, 2) 0 0 = 2 := by
    simp [exXs, exYs, H2d, b1, b2, b3, List.filter]
  have h1 : H2d exXs exYs 1 2 (0, 1) (0, 2) 0 1 = 2 := by
    simp [exXs, exYs, H2d, b1, b2, b3, List.filter]
  have hw : wsums exXs exYs 1 2 (0, 1) (0, 2) 0 = 4 := by
    rw [wsums, Finset.sum_range_succ, Finset.sum_range_succ,
      Finset.sum_range_zero, h0, h1]
    norm_num
  have hmask : profMask exXs exYs 1 2 (0, 1) (0, 2) = [0] := by
    simp [profMask, List.filter, hw]
  have hc0 : binCenter 0 2 2 0 = 1/2 := by norm_num [binCenter]
  have hc1 : binCenter 0 2 2 1 = 3/2 := by norm_num [binCenter]
  have hmean : specBinMean (H2d exXs exYs 1 2 (0, 1) (0, 2) 0)
      (binCenter 0 2 2) 2 = 1 := by
    rw [specBinMean, Finset.sum_range_succ, Finset.sum_range_succ,
      Finset.sum_range_zero, Finset.sum_range_succ, Finset.sum_range_succ,
      Finset.sum_range_zero, h0, h1, hc0, hc1]
    norm_num
  have hspecstd : specBinStd sqrtEx (H2d exXs exYs 1 2 (0, 1) (0, 2) 0)
      (binCenter 0 2 2) 2 = 1/2 := by
    rw [specBinStd, hmean, Finset.sum_range_succ, Finset.sum_range_succ,
      Finset.sum_range_zero, Finset.sum_range_succ, Finset.sum_range_succ,
      Finset.sum_range_zero, h0, h1, hc0, hc1]
    norm_num [sqrtEx]
  have hmsq : profMeanSq exXs exYs 1 2 (0, 1) (0, 2) 0 = 5/4 := by
    simp only [profMeanSq, wsums, Finset.sum_range_succ, Finset.sum_range_zero,
      h0, h1, hc0, hc1]
    norm_num
  have hm : profMean exXs exYs 1 2 (0, 1) (0, 2) 0 = 1 := by
    simp only [profMean, wsums, Finset.sum_range_succ, Finset.sum_range_zero,
      h0, h1, hc0, hc1]
    norm_num
  have hstdval : profStd sqrtEx exXs exYs 1 2 (0, 1) (0, 2) 0 = 1/4 := by
    rw [profStd, hmsq, hm, hw]
    norm_num [sqrtEx]
  refine ⟨?_, hspecstd, by norm_num [sqrtEx], by norm_num [sqrtEx], by norm_num⟩
  simp [profile_x, hmask, hstdval]

/-- C7: for every input to profile_x, the three returned arrays have equal
length, every x-bin kept by the mask has a strictly positive total count
(so every division performed on masked bins has a strictly positive
divisor, including the square-root divisor for a square root preserving
positivity), and every x-bin with zero total count is masked out. -/
theorem profile_x_empty_bins_masked (sq : ℚ → ℚ)
    (hsq : ∀ q : ℚ, 0 < q → 0 < sq q) (xs ys : List ℚ) (nbx nby : ℕ)
    (xr yr : ℚ × ℚ) :
    ((profile_x sq xs ys nbx nby xr yr).1.length =
        (profile_x sq xs ys nbx nby xr yr).2.1.length ∧
      (profile_x sq xs ys nbx nby xr yr).2.1.length =
        (profile_x sq xs ys nbx nby xr yr).2.2.length) ∧
    (∀ i ∈ profMask xs ys nbx nby xr yr,
        0 < wsums xs ys nbx nby xr yr i ∧
        0 < sq (wsums xs ys nbx nby xr yr i)) ∧
    (∀ i ∈ List.range nbx, wsums xs ys nbx nby xr yr i = 0 →
        i ∉ profMask xs ys nbx nby xr yr) := by
  refine ⟨⟨by simp [profile_x], by simp [profile_x]⟩, ?_, ?_⟩
  · intro i hi
    have hw : 0 < wsums xs ys nbx nby xr yr i :=
      ((mem_profMask_iff xs ys nbx nby xr yr i).mp hi).2
    exact ⟨hw, hsq _ hw⟩
  · intro i _ hzero hmem
    have hw : 0 < wsums xs ys nbx nby xr yr i :=
      ((mem_profMask_iff xs ys nbx nby xr yr i).mp hmem).2
    rw [hzero] at hw
    exact lt_irrefl 0 hw

/-- C7 witness: the masking theorem applied to the concrete example data
with the identity function as the (positivity-preserving) square root. -/
theorem profile_x_empty_bins_masked_witness :
    (∀ q : ℚ, 0 < q → 0 < id q) ∧
    (((profile_x id exXs exYs 1 2 (0, 1) (0, 2)).1.length =
        (profile_x id exXs exYs 1 2 (0, 1) (0, 2)).2.1.length ∧
      (profile_x id exXs exYs 1 2 (0, 1) (0, 2)).2.1.length =
        (profile_x id exXs exYs 1 2 (0, 1) (0, 2)).2.2.length) ∧
    (∀ i ∈ profMask exXs exYs 1 2 (0, 1) (0, 2),
        0 < wsums exXs exYs 1 2 (0, 1) (0, 2) i ∧
        0 < id (wsums exXs exYs 1 2 (0, 1) (0, 2) i)) ∧
    (∀ i ∈ List.range 1, wsums exXs exYs 1 2 (0, 1) (0, 2) i = 0 →
        i ∉ profMask exXs exYs 1 2 (0, 1) (0, 2))) :=
  ⟨fun _ h => h,
   profile_x_empty_bins_masked id (fun _ h => h) exXs exYs 1 2 (0, 1) (0, 2)⟩

/-- C5: for every dataset with common uncertainty sigmay and nonzero
determinant Delta, the analytically computed intercept and slope satisfy
the two normal equations of least squares, and the goodness-of-fit
probability is the chi-square survival function evaluated at Chi2_calc with
Npoints - 2 degrees of freedom. -/
theorem linfit_normal_equations (chi2sf : ℚ → ℕ → ℚ) (xs ys : List ℚ)
    (sigmay : ℚ) (h : Delta xs ≠ 0) :
    ys.sum = (xs.length : ℚ) * alpha0_calc xs ys + alpha1_calc xs ys * xs.sum ∧
    sumXY xs ys = alpha0_calc xs ys * xs.sum + alpha1_calc xs ys * sumXX xs ∧
    Prob_calc chi2sf xs ys sigmay =
      chi2sf (Chi2_calc xs ys sigmay) (xs.length - 2) := by
  refine ⟨?_, ?_, rfl⟩
  · rw [alpha0_calc, alpha1_calc]
    field_simp
    rw [show Delta xs = sumXX xs * (xs.length : ℚ) - xs.sum ^ 2 from rfl]
    ring
  · rw [alpha0_calc, alpha1_calc]
    field_simp
    rw [show Delta xs = sumXX xs * (xs.length : ℚ) - xs.sum ^ 2 from rfl]
    ring

/-- C5 witness: the normal-equation theorem applied to the three-point
dataset x = [1, 2, 3], y = [1, 2, 4] with sigmay = 1. -/
theorem linfit_normal_equations_witness :
    Delta [1, 2, 3] ≠ 0 ∧
    (([1, 2, 4] : List ℚ).sum =
        (([1, 2, 3] : List ℚ).length : ℚ) * alpha0_calc [1, 2, 3] [1, 2, 4] +
          alpha1_calc [1, 2, 3] [1, 2, 4] * ([1, 2, 3] : List ℚ).sum ∧
      sumXY [1, 2, 3] [1, 2, 4] =
        alpha0_calc [1, 2, 3] [1, 2, 4] * ([1, 2, 3] : List ℚ).sum +
          alpha1_calc [1, 2, 3] [1, 2, 4] * sumXX [1, 2, 3] ∧
      Prob_calc (fun _ _ => 0) [1, 2, 3] [1, 2, 4] 1 =
        (fun _ _ => (0 : ℚ)) (Chi2_calc [1, 2, 3] [1, 2, 4] 1)
          (([1, 2, 3] : List ℚ).length - 2)) :=
  ⟨by norm_num [Delta, sumXX],
   linfit_normal_equations (fun _ _ => 0) [1, 2, 3] [1, 2, 4] 1
     (by norm_num [Delta, sumXX])⟩

/-- C8: the resolution is the masked population standard deviation of the
relative-difference array, and a data pair whose relative difference falls
outside the open interval (-2, 2) has no influence: appending it changes
neither the raw nor the calibrated resolution. -/
theorem resolution_masked (sq : ℚ → ℚ) (dm dk : List ℚ) (dmx dkx : ℚ)
    (hlen : dm.length = dk.length)
    (hout : (dmx - dkx) / dkx ≤ -2 ∨ 2 ≤ (dmx - dkx) / dkx) :
    Res_Raw sq dm dk = stdPop sq (maskedVals (RD dm dk)) ∧
    Res_Raw sq (dm ++ [dmx]) (dk ++ [dkx]) = Res_Raw sq dm dk ∧
    Res_calib_lsig sq (dm ++ [dmx]) (dk ++ [dkx]) = Res_calib_lsig sq dm dk := by
  have hRD : RD (dm ++ [dmx]) (dk ++ [dkx]) = RD dm dk ++ [(dmx - dkx) / dkx] := by
    unfold RD
    rw [List.zip_append hlen, List.map_append]
    simp
  have hsingle : maskedVals [(dmx - dkx) / dkx] = [] := by
    unfold maskedVals
    rcases hout with h | h
    · have hnot : ¬(-2 < (dmx - dkx) / dkx) := not_lt.mpr h
      simp [List.filter, hnot]
    · have hnot : ¬((dmx - dkx) / dkx < 2) := not_lt.mpr h
      simp [List.filter, hnot]
  have hmask : maskedVals (RD (dm ++ [dmx]) (dk ++ [dkx])) =
      maskedVals (RD dm dk) := by
    rw [hRD]
    unfold maskedVals at hsingle ⊢
    rw [List.filter_append, hsingle, List.append_nil]
  exact ⟨rfl, by unfold Res_Raw; rw [hmask], by unfold Res_calib_lsig; rw [hmask]⟩

/-- C8 witness: appending the pair (dmeas, dknown) = (4, 1), whose relative
difference 3 lies outside (-2, 2), leaves the resolutions of the dataset
dmeas = [2, 3], dknown = [2, 2] unchanged. -/
theorem resolution_masked_witness :
    ([2, 3] : List ℚ).length = ([2, 2] : List ℚ).length ∧
    (((4 : ℚ) - 1) / 1 ≤ -2 ∨ 2 ≤ ((4 : ℚ) - 1) / 1) ∧
    (Res_Raw id [2, 3] [2, 2] = stdPop id (maskedVals (RD [2, 3] [2, 2])) ∧
      Res_Raw id ([2, 3] ++ [4]) ([2, 2] ++ [1]) = Res_Raw id [2, 3] [2, 2] ∧
      Res_calib_lsig id ([2, 3] ++ [4]) ([2, 2] ++ [1]) =
        Res_calib_lsig id [2, 3] [2, 2]) :=
  ⟨rfl, Or.inr (by norm_num),
   resolution_masked id [2, 3] [2, 2] 4 1 rfl (Or.inr (by norm_num))⟩

/-- C10: calc_separation is symmetric in its two samples and nonnegative,
for every nonnegativity-preserving square root and samples of at least two
elements with at least one positive sample standard deviation. -/
theorem calc_separation_symm_nonneg (sq : ℚ → ℚ) (hs : ∀ q : ℚ, 0 ≤ sq q)
    (x y : List ℚ) (hx : 2 ≤ x.length) (hy : 2 ≤ y.length)
    (hstd : 0 < stdSample sq x ∨ 0 < stdSample sq y) :
    calc_separation sq x y = calc_separation sq y x ∧
    0 ≤ calc_separation sq x y := by
  constructor
  · unfold calc_separation
    rw [abs_sub_comm, add_comm]
  · unfold calc_separation
    exact div_nonneg (abs_nonneg _) (hs _)

/-- C10 witness: the symmetry/nonnegativity theorem applied to the samples
[0, 1] and [3, 5] with the absolute value as the nonnegative square root;
the first sample standard deviation is positive. -/
theorem calc_separation_symm_nonneg_witness :
    (∀ q : ℚ, 0 ≤ |q|) ∧ 2 ≤ ([0, 1] : List ℚ).length ∧
    2 ≤ ([3, 5] : List ℚ).length ∧
    (0 < stdSample (fun q => |q|) [0, 1] ∨
      0 < stdSample (fun q => |q|) [3, 5]) ∧
    (calc_separation (fun q => |q|) [0, 1] [3, 5] =
        calc_separation (fun q => |q|) [3, 5] [0, 1] ∧
      0 ≤ calc_separation (fun q => |q|) [0, 1] [3, 5]) :=
  ⟨fun q => abs_nonneg q, by norm_num, by norm_num,
   Or.inl (by norm_num [stdSample, sampleVar, npMean]),
   calc_separation_symm_nonneg (fun q => |q|) (fun q => abs_nonneg q)
     [0, 1] [3, 5] (by norm_num) (by norm_num)
     (Or.inl (by norm_num [stdSample, sampleVar, npMean]))⟩

theorem ehrenfestM_nonneg (NB i j : ℕ) (hi : i ≤ NB) :
    0 ≤ ehrenfestM NB i j := by
  have h1 : (0 : ℚ) ≤ (i : ℚ) := by positivity
  have h3 : (0 : ℚ) ≤ (NB : ℚ) := by positivity
  have h2 : (0 : ℚ) ≤ (NB : ℚ) - i := by
    have hc : (i : ℚ) ≤ (NB : ℚ) := by exact_mod_cast hi
    linarith
  unfold ehrenfestM
  split_ifs <;>
    first
      | exact le_refl 0
      | exact div_nonneg h2 h3
      | exact div_nonneg h1 h3

theorem ehrenfestM_rowsum (NB : ℕ) (h1 : 1 ≤ NB) :
    ∀ i ≤ NB, ∑ j ∈ Finset.range (NB + 1), ehrenfestM NB i j = 1 := by
  intro i hi
  have hNB : ((NB : ℚ)) ≠ 0 := Nat.cast_ne_zero.mpr (by omega)
  by_cases h0 : i = 0
  · subst h0
    have hfun : ∀ j ∈ Finset.range (NB + 1),
        ehrenfestM NB 0 j = if j = 1 then ((NB : ℚ)) / NB else 0 := by
      intro j _
      simp [ehrenfestM]
    rw [Finset.sum_congr rfl hfun,
      Finset.sum_ite_eq' (Finset.range (NB + 1)) 1 (fun _ => ((NB : ℚ)) / NB)]
    rw [if_pos (Finset.mem_range.mpr (by omega))]
    exact div_self hNB
  · by_cases hN : i = NB
    · have hfun : ∀ j ∈ Finset.range (NB + 1),
          ehrenfestM NB i j = if j = i - 1 then ((i : ℚ)) / NB else 0 := by
        intro j _
        simp only [ehrenfestM, if_neg h0, if_pos hN]
      rw [Finset.sum_congr rfl hfun,
        Finset.sum_ite_eq' (Finset.range (NB + 1)) (i - 1)
          (fun _ => ((i : ℚ)) / NB)]
      rw [if_pos (Finset.mem_range.mpr (by omega)), hN]
      exact div_self hNB
    · have hfun : ∀ j ∈ Finset.range (NB + 1),
          ehrenfestM NB i j =
            (if j = i - 1 then (i : ℚ) / NB else 0) +
              (if j = i + 1 then ((NB : ℚ) - i) / NB else 0) := by
        intro j _
        simp only [ehrenfestM, if_neg h0, if_neg hN]
        split_ifs <;> first | omega | ring
      rw [Finset.sum_congr rfl hfun, Finset.sum_add_distrib,
        Finset.sum_ite_eq' (Finset.range (NB + 1)) (i - 1)
          (fun _ => (i : ℚ) / NB),
        Finset.sum_ite_eq' (Finset.range (NB + 1)) (i + 1)
          (fun _ => ((NB : ℚ) - i) / NB)]
      rw [if_pos (Finset.mem_range.mpr (by omega)),
        if_pos (Finset.mem_range.mpr (by omega))]
      rw [div_add_div_same, show (i : ℚ) + ((NB : ℚ) - i) = (NB : ℚ) by ring]
      exact div_self hNB

theorem vecMat_sum_one (v : ℕ → ℚ) (A : ℕ → ℕ → ℚ) (n : ℕ)
    (hrow : ∀ i < n, ∑ j ∈ Finset.range n, A i j = 1) :
    ∑ j ∈ Finset.range n, vecMat v A n j = ∑ i ∈ Finset.range n, v i := by
  unfold vecMat
  rw [Finset.sum_comm]
  refine Finset.sum_congr rfl ?_
  intro i hi
  rw [← Finset.mul_sum, hrow i (Finset.mem_range.mp hi), mul_one]

theorem matPowF_rowsum (n : ℕ) (A : ℕ → ℕ → ℚ)
    (hrow : ∀ i < n, ∑ j ∈ Finset.range n, A i j = 1) :
    ∀ k, ∀ i < n, ∑ j ∈ Finset.range n, matPowF n A k i j = 1 := by
  intro k
  induction k with
  | zero =>
    intro i hi
    simp only [matPowF]
    rw [Finset.sum_ite_eq (Finset.range n) i (fun _ => (1 : ℚ))]
    rw [if_pos (Finset.mem_range.mpr hi)]
  | succ k ih =>
    intro i hi
    simp only [matPowF]
    rw [Finset.sum_comm]
    have hinner : ∀ l ∈ Finset.range n,
        (∑ j ∈ Finset.range n, matPowF n A k i l * A l j) =
          matPowF n A k i l := by
      intro l hl
      rw [← Finset.mul_sum, hrow l (Finset.mem_range.mp hl), mul_one]
    rw [Finset.sum_congr rfl hinner]
    exact ih i hi

/-- C9: for every NB >= 1, the Ehrenfest transfer matrix is row-stochastic
on its (NB+1) x (NB+1) index range: all entries are nonnegative and every
row sums to 1, and consequently multiplying any probability row vector by
the matrix yields a probability vector. -/
theorem ehrenfestM_row_stochastic (NB : ℕ) (h1 : 1 ≤ NB) :
    (∀ i ≤ NB, ∀ j, 0 ≤ ehrenfestM NB i j) ∧
    (∀ i ≤ NB, ∑ j ∈ Finset.range (NB + 1), ehrenfestM NB i j = 1) ∧
    (∀ v : ℕ → ℚ, (∀ i, 0 ≤ v i) →
      (∑ i ∈ Finset.range (NB + 1), v i = 1) →
      (∀ j, 0 ≤ vecMat v (ehrenfestM NB) (NB + 1) j) ∧
        ∑ j ∈ Finset.range (NB + 1), vecMat v (ehrenfestM NB) (NB + 1) j = 1) := by
  refine ⟨fun i hi j => ehrenfestM_nonneg NB i j hi, ehrenfestM_rowsum NB h1, ?_⟩
  intro v hv hsum
  constructor
  · intro j
    unfold vecMat
    apply Finset.sum_nonneg
    intro i hi
    exact mul_nonneg (hv i)
      (ehrenfestM_nonneg NB i j (Nat.lt_succ_iff.mp (Finset.mem_range.mp hi)))
  · rw [vecMat_sum_one v (ehrenfestM NB) (NB + 1)
      (fun i hi => ehrenfestM_rowsum NB h1 i (Nat.lt_succ_iff.mp hi))]
    exact hsum

/-- C9 witness: the row-stochasticity theorem applied at NB = 2. -/
theorem ehrenfestM_row_stochastic_witness :
    1 ≤ 2 ∧
    ((∀ i ≤ 2, ∀ j, 0 ≤ ehrenfestM 2 i j) ∧
      (∀ i ≤ 2, ∑ j ∈ Finset.range 3, ehrenfestM 2 i j = 1) ∧
      (∀ v : ℕ → ℚ, (∀ i, 0 ≤ v i) → (∑ i ∈ Finset.range 3, v i = 1) →
        (∀ j, 0 ≤ vecMat v (ehrenfestM 2) 3 j) ∧
          ∑ j ∈ Finset.range 3, vecMat v (ehrenfestM 2) 3 j = 1)) :=
  ⟨by norm_num, ehrenfestM_row_stochastic 2 (by norm_num)⟩

/-- C3: the code computes PAfter = V1 times the FIRST power of the ALL-ONES
matrix (a placeholder marked "Insert your calculations here"), not V1 times
the 20th power of the jump matrix M: the computed PAfter is the all-ones
vector (total mass 11), P9 is the dot product with the zero vector (0, not
the component selected by V2), while the claimed vector V1 * M^20 is a
probability vector of total mass 1; hence the computed PAfter differs from
the claimed one. -/
theorem markov_placeholder_divergence :
    (∀ j ∈ Finset.range (ehrNB + 1), PAfter_code j = 1) ∧
    P9_code = 0 ∧
    (∑ j ∈ Finset.range (ehrNB + 1), PAfter_spec j = 1) ∧
    ¬(∀ j ∈ Finset.range (ehrNB + 1), PAfter_code j = PAfter_spec j) := by
  have hrow : ∀ i < ehrNB + 1,
      ∑ j ∈ Finset.range (ehrNB + 1), ehrenfestM ehrNB i j = 1 := by
    intro i hi
    exact ehrenfestM_rowsum ehrNB (by norm_num [ehrNB]) i (by omega)
  have hcode1 : ∀ j ∈ Finset.range (ehrNB + 1), PAfter_code j = 1 := by
    intro j hj
    rw [show ehrNB = 10 from rfl] at hj
    fin_cases hj <;>
      norm_num [PAfter_code, vecMat, matPowF, ehrV1, onesMat, ehrNB,
        Finset.sum_range_succ]
  have hspec : ∑ j ∈ Finset.range (ehrNB + 1), PAfter_spec j = 1 := by
    unfold PAfter_spec
    rw [vecMat_sum_one ehrV1 (matPowF (ehrNB + 1) (ehrenfestM ehrNB) ehrTurns)
      (ehrNB + 1)
      (matPowF_rowsum (ehrNB + 1) (ehrenfestM ehrNB) hrow ehrTurns)]
    norm_num [ehrV1, ehrNB, Finset.sum_range_succ]
  refine ⟨hcode1, ?_, hspec, ?_⟩
  · unfold P9_code vecDot zerosVec
    simp
  · intro hall
    have hsum : ∑ j ∈ Finset.range (ehrNB + 1), PAfter_code j =
        ∑ j ∈ Finset.range (ehrNB + 1), PAfter_spec j :=
      Finset.sum_congr rfl hall
    have h11 : ∑ j ∈ Finset.range (ehrNB + 1), PAfter_code j = 11 := by
      rw [Finset.sum_congr rfl hcode1]
      norm_num [ehrNB]
    rw [hsum, hspec] at h11
    norm_num at h11

/-- C2: the code sets the Fisher weights to the placeholder vector
(0, 1, 2, 3) (the cell says "Do this yourself"), not to the inverse of the
combined covariance matrix applied to the mean difference: the recorded
covmat_comb_inv is indeed the two-sided inverse of covmat_comb, but for the
mean-difference vector (1, 0, 0, 0) the product covmat_comb_inv * diff has
second component -1/5 while wf has second component 1. -/
theorem fisher_placeholder_divergence :
    (∀ i ∈ Finset.range 4, ∀ j ∈ Finset.range 4,
        matMul4 covmat_comb covmat_comb_inv i j = (if i = j then 1 else 0) ∧
        matMul4 covmat_comb_inv covmat_comb i j = (if i = j then 1 else 0)) ∧
    wf 1 = 1 ∧
    matVec4 covmat_comb_inv meanDiffEx 1 = -1/5 ∧
    ¬(∀ i ∈ Finset.range 4, wf i = matVec4 covmat_comb_inv meanDiffEx i) := by
  refine ⟨?_, ?_, ?_, ?_⟩
  · intro i hi j hj
    fin_cases hi <;> fin_cases hj <;>
      constructor <;>
        norm_num [matMul4, covmat_comb, covmat_comb_inv, covmat_Vers,
          covmat_Virg, Finset.sum_range_succ]
  · norm_num [wf]
  · norm_num [matVec4, covmat_comb_inv, meanDiffEx, Finset.sum_range_succ]
  · intro hall
    have h1 := hall 1 (by norm_num)
    rw [show wf 1 = 1 by norm_num [wf],
      show matVec4 covmat_comb_inv meanDiffEx 1 = -1/5 by
        norm_num [matVec4, covmat_comb_inv, meanDiffEx,
          Finset.sum_range_succ]] at h1
    norm_num at h1

/-- C4: with the save flag off, neither notebook's figure cells write any
file; with the flag on, the Monte-Carlo pi notebook writes HitDist.pdf, but
the calibration notebook's save cell references the undefined name fig_rel
(the figure is bound to fig_RD) and raises a NameError instead of writing
Resolution_Uncalibrated.pdf. -/
theorem saveflag_divergence :
    runScript false calibScript initNb = .ok ⟨["fig_RD"], []⟩ ∧
    runScript true calibScript initNb =
      .error ("NameError: name fig_rel is not defined") ∧
    runScript false piScript initNb = .ok ⟨["fig1"], []⟩ ∧
    runScript true piScript initNb = .ok ⟨["fig1"], ["HitDist.pdf"]⟩ :=
  ⟨rfl, rfl, rfl, rfl⟩

theorem acceptOne_spec (s : List (ℚ × ℚ)) :
    ∀ p rest k, acceptOne s = some (p, rest, k) →
      p ∈ s ∧ p.2 < 2 * p.1 ∧ (∀ q ∈ rest, q ∈ s) ∧ 1 ≤ k := by
  induction s with
  | nil =>
    intro p rest k h
    simp [acceptOne] at h
  | cons a t ih =>
    intro p rest k h
    by_cases ha : a.2 < 2 * a.1
    · rw [acceptOne, if_pos ha] at h
      obtain ⟨h1, h2, h3⟩ := by simpa using h
      subst h1
      subst h2
      exact ⟨List.mem_cons_self a t, ha,
        fun q hq => List.mem_cons_of_mem a hq, by omega⟩
    · rw [acceptOne, if_neg ha] at h
      cases hrec : acceptOne t with
      | none => rw [hrec] at h; simp at h
      | some v =>
        obtain ⟨q, r, m⟩ := v
        rw [hrec] at h
        obtain ⟨h1, h2, h3⟩ := by simpa using h
        obtain ⟨hq, htest, hsub, hm⟩ := ih q r m hrec
        subst h1
        subst h2
        exact ⟨List.mem_cons_of_mem a hq, htest,
          fun u hu => List.mem_cons_of_mem a (hsub u hu), by omega⟩

theorem acceptReject_spec :
    ∀ (n : ℕ) (s : List (ℚ × ℚ)) (xs : List ℚ) (t : ℕ),
      acceptReject n s = some (xs, t) →
      xs.length = n ∧
      (∀ x ∈ xs, ∃ p, p ∈ s ∧ x = p.1 ∧ p.2 < 2 * p.1) ∧ n ≤ t := by
  intro n
  induction n with
  | zero =>
    intro s xs t h
    obtain ⟨h1, h2⟩ := by simpa [acceptReject] using h
    subst h1
    simp
  | succ n ih =>
    intro s xs t h
    rw [acceptReject] at h
    cases h1 : acceptOne s with
    | none => rw [h1] at h; simp at h
    | some v =>
      obtain ⟨p, rest, k⟩ := v
      rw [h1] at h
      cases h2 : acceptReject n rest with
      | none =>
        simp only [h2] at h
        exact Option.noConfusion h
      | some w =>
        obtain ⟨xs', m⟩ := w
        simp only [h2, Option.some.injEq, Prod.mk.injEq] at h
        obtain ⟨hx, ht⟩ := h
        obtain ⟨hp, htest, hsub, hk⟩ := acceptOne_spec s p rest k h1
        obtain ⟨hlen, hmem, hle⟩ := ih rest xs' m h2
        subst hx
        refine ⟨by simp [hlen], ?_, by omega⟩
        intro x hxmem
        rcases List.mem_cons.mp hxmem with hhead | htail
        · exact ⟨p, hp, hhead, htest⟩
        · obtain ⟨q, hq, hxq, hqt⟩ := hmem x htail
          exact ⟨q, hsub q hq, hxq, hqt⟩

/-- C6: whenever the accept/reject loop fills its output from a stream of
draw pairs, it returns exactly n accepted values, each accepted value is
the first component of a stream pair whose second component passed the
envelope test y < 2x, accepted values stay inside the x-draw range when the
stream draws do, and the try counter is at least the number of accepted
points. -/
theorem acceptReject_sound (n : ℕ) (stream : List (ℚ × ℚ)) (xs : List ℚ)
    (t : ℕ) (xlo xhi : ℚ) (h : acceptReject n stream = some (xs, t))
    (hr : ∀ p ∈ stream, xlo ≤ p.1 ∧ p.1 ≤ xhi) :
    xs.length = n ∧
    (∀ x ∈ xs, ∃ p, p ∈ stream ∧ x = p.1 ∧ p.2 < 2 * p.1) ∧
    (∀ x ∈ xs, xlo ≤ x ∧ x ≤ xhi) ∧ n ≤ t := by
  obtain ⟨h1, h2, h3⟩ := acceptReject_spec n stream xs t h
  refine ⟨h1, h2, ?_, h3⟩
  intro x hx
  obtain ⟨p, hp, hxp, _⟩ := h2 x hx
  rw [hxp]
  exact hr p hp

/-- C6 witness: on the stream [(1, 3), (2, 1), (3, 1)] the loop rejects the
first pair (3 is not < 2), accepts 2 and 3 in three tries, and the
soundness theorem applies with draw range [0, 3]. -/
theorem acceptReject_sound_witness :
    acceptReject 2 [((1 : ℚ), 3), (2, 1), (3, 1)] = some ([2, 3], 3) ∧
    (∀ p ∈ [((1 : ℚ), 3), (2, 1), (3, 1)], 0 ≤ p.1 ∧ p.1 ≤ 3) ∧
    (([2, 3] : List ℚ).length = 2 ∧
      (∀ x ∈ ([2, 3] : List ℚ), ∃ p,
        p ∈ [((1 : ℚ), 3), (2, 1), (3, 1)] ∧ x = p.1 ∧ p.2 < 2 * p.1) ∧
      (∀ x ∈ ([2, 3] : List ℚ), 0 ≤ x ∧ x ≤ 3) ∧ 2 ≤ 3) :=
  ⟨by norm_num [acceptReject, acceptOne],
   by norm_num,
   acceptReject_sound 2 [((1 : ℚ), 3), (2, 1), (3, 1)] [2, 3] 3 0 3
     (by norm_num [acceptReject, acceptOne]) (by norm_num)⟩

end AppStat
